import Mathlib

/-!
# Layout & composition engine of the grid-mockup generator: verification

Shallow embedding of the geometry resolver (`drawCanvas` / `drawExportCanvas`
layout switches), the freeform snapping search (`getSnapped` in
`FreeformCanvas.tsx`), the layout-mode enumeration (`types.ts`), the
layout-mode switch handler, the draw-operation structure of the three
compositor entry points, and the export worker's message protocol
(`export.worker.ts`).

Numbers are modelled by `ℚ` (the source uses JS doubles; all the arithmetic
at issue is exact on rationals).  Image counts, rows and columns are `ℕ`.
-/

/-- A placement rectangle `{x, y, width, height}` in target-surface units. -/
structure Rect where
  x : ℚ
  y : ℚ
  w : ℚ
  h : ℚ
deriving DecidableEq, Repr

/-- Two rectangles overlap when their interiors intersect: on each axis the
largest left edge is strictly below the smallest right edge. -/
def overlaps (a b : Rect) : Prop :=
  max a.x b.x < min (a.x + a.w) (b.x + b.w) ∧
  max a.y b.y < min (a.y + a.h) (b.y + b.h)

instance (a b : Rect) : Decidable (overlaps a b) := by
  unfold overlaps; infer_instance

/-- A rectangle lies inside the canvas `[0, W] × [0, H]`. -/
def insideCanvas (W H : ℚ) (r : Rect) : Prop :=
  0 ≤ r.x ∧ 0 ≤ r.y ∧ r.x + r.w ≤ W ∧ r.y + r.h ≤ H

instance (W H : ℚ) (r : Rect) : Decidable (insideCanvas W H r) := by
  unfold insideCanvas; infer_instance

/-- `Math.ceil(Math.sqrt n)` for a natural `n`: the least `k` with `n ≤ k²`. -/
def ceilSqrt (n : ℕ) : ℕ :=
  let s := Nat.sqrt n
  if s * s = n then s else s + 1

/-- `Math.ceil(n / k)` for naturals. -/
def ceilDiv (n k : ℕ) : ℕ := (n + k - 1) / k

theorem le_ceilSqrt_sq (n : ℕ) : n ≤ ceilSqrt n * ceilSqrt n := by
  unfold ceilSqrt
  by_cases h : Nat.sqrt n * Nat.sqrt n = n
  · simp [h]
  · simp only [h, if_false]
    have h2 : n < (Nat.sqrt n + 1) * (Nat.sqrt n + 1) := by
      simpa [Nat.succ_eq_add_one] using Nat.lt_succ_sqrt n
    omega

theorem ceilSqrt_least (n k : ℕ) (h : n ≤ k * k) : ceilSqrt n ≤ k := by
  unfold ceilSqrt
  have hle : Nat.sqrt n * Nat.sqrt n ≤ n := Nat.sqrt_le n
  by_cases he : Nat.sqrt n * Nat.sqrt n = n
  · simp only [he, if_true]
    by_contra hc
    push_neg at hc
    have : k * k < Nat.sqrt n * Nat.sqrt n := by nlinarith
    omega
  · simp only [he, if_false]
    by_contra hc
    push_neg at hc
    have hks : k ≤ Nat.sqrt n := by omega
    have h1 : k * k ≤ Nat.sqrt n * Nat.sqrt n := Nat.mul_le_mul hks hks
    omega

theorem one_le_ceilSqrt (n : ℕ) (hn : 1 ≤ n) : 1 ≤ ceilSqrt n := by
  by_contra h
  push_neg at h
  have h2 := le_ceilSqrt_sq n
  have h3 : ceilSqrt n = 0 := by omega
  rw [h3] at h2
  omega

theorem le_mul_ceilDiv (n k : ℕ) (hk : 0 < k) : n ≤ k * ceilDiv n k := by
  unfold ceilDiv
  rcases Nat.eq_zero_or_pos n with h | h
  · simp [h]
  · have h1 := Nat.div_add_mod (n + k - 1) k
    have h2 : (n + k - 1) % k < k := Nat.mod_lt _ hk
    omega

theorem ceilDiv_least (n k m : ℕ) (hk : 0 < k) (h : n ≤ k * m) : ceilDiv n k ≤ m := by
  unfold ceilDiv
  have : (n + k - 1) / k < m + 1 := by
    rw [Nat.div_lt_iff_lt_mul hk]
    calc n + k - 1 < k * m + k := by omega
      _ = (m + 1) * k := by ring
  omega

theorem one_le_ceilDiv (n k : ℕ) (hn : 1 ≤ n) (hk : 0 < k) : 1 ≤ ceilDiv n k := by
  by_contra h
  push_neg at h
  have := le_mul_ceilDiv n k hk
  interval_cases hc : ceilDiv n k
  omega

theorem ceilSqrt_eq (n k : ℕ) (h1 : n ≤ k * k) (h2 : (k - 1) * (k - 1) < n) : ceilSqrt n = k := by
  have ha := ceilSqrt_least n k h1
  have hb := le_ceilSqrt_sq n
  by_contra hc
  have hck : ceilSqrt n ≤ k - 1 := by omega
  have : ceilSqrt n * ceilSqrt n ≤ (k - 1) * (k - 1) := Nat.mul_le_mul hck hck
  omega

theorem ceilSqrt_one : ceilSqrt 1 = 1 := ceilSqrt_eq 1 1 (by norm_num) (by norm_num)

theorem ceilSqrt_two : ceilSqrt 2 = 2 := ceilSqrt_eq 2 2 (by norm_num) (by norm_num)

theorem ceilSqrt_three : ceilSqrt 3 = 2 := ceilSqrt_eq 3 2 (by norm_num) (by norm_num)

theorem ceilSqrt_four : ceilSqrt 4 = 2 := ceilSqrt_eq 4 2 (by norm_num) (by norm_num)

/-! ## Geometry resolver

Transcribed from the layout `switch` of `drawCanvas` (App) and
`drawExportCanvas` (`export.worker.ts`), which use identical formulas.
The scale factors (`scaleX`, `scaleY`) multiply the gap uniformly; we work in
the target surface's own units, as the worker does with `exportGapX/Y` equal
to the scaled gap. -/

/-- The cell rectangles produced by the `forEach` loops of the layout cases:
image `i` goes to column `i % cols`, row `Math.floor(i / cols)`, at
`start + index * (cell + gap)` on each axis. -/
def cellsAt (n cols : ℕ) (sx sy cw ch gx gy : ℚ) : List Rect :=
  (List.range n).map fun i =>
    ⟨sx + (i % cols : ℕ) * (cw + gx), sy + (i / cols : ℕ) * (ch + gy), cw, ch⟩

/-- `case 'grid'` of the layout switch. -/
def gridCase (n : ℕ) (W H g : ℚ) : List Rect :=
  if n = 0 then []
  else
    let cols := max 1 (ceilSqrt n)
    let rows := max 1 (ceilDiv n cols)
    let cellWidth := max 0 ((W - ((cols : ℚ) + 1) * g) / cols)
    let cellHeight := max 0 ((H - ((rows : ℚ) + 1) * g) / rows)
    cellsAt n cols g g cellWidth cellHeight g g

/-- `case 'left-big'` / `case 'right-big'` of the layout switch. -/
def leftRightBigCase (isLeftBig : Bool) (n : ℕ) (W H g : ℚ) : List Rect :=
  if n = 0 then []
  else
    let bigX := if isLeftBig then g else W / 2 + g / 2
    let bigW := max 0 (W / 2 - g * 1.5)
    let bigH := max 0 (H - g * 2)
    let big : Rect := ⟨bigX, g, bigW, bigH⟩
    if n ≤ 1 then [big]
    else
      let m := n - 1
      let cols := max 1 (ceilSqrt m)
      let rows := max 1 (ceilDiv m cols)
      let startX := if isLeftBig then W / 2 + g / 2 else g
      let availableWidth := max 0 (W / 2 - g * 1.5)
      let cellWidth := max 0 ((availableWidth - ((cols : ℚ) - 1) * g) / cols)
      let cellHeight := max 0 ((H - ((rows : ℚ) + 1) * g) / rows)
      big :: cellsAt m cols startX g cellWidth cellHeight g g

/-- `case 'top-big'` / `case 'bottom-big'` of the layout switch. -/
def topBottomBigCase (isTopBig : Bool) (n : ℕ) (W H g : ℚ) : List Rect :=
  if n = 0 then []
  else
    let bigY := if isTopBig then g else H / 2 + g / 2
    let bigW := max 0 (W - g * 2)
    let bigH := max 0 (H / 2 - g * 1.5)
    let big : Rect := ⟨g, bigY, bigW, bigH⟩
    if n ≤ 1 then [big]
    else
      let m := n - 1
      let cols := max 1 (ceilSqrt m)
      let rows := max 1 (ceilDiv m cols)
      let startY := if isTopBig then H / 2 + g / 2 else g
      let gridHeight := max 0 (H / 2 - g * 1.5)
      let cellWidth := max 0 ((W - ((cols : ℚ) + 1) * g) / cols)
      let cellHeight := max 0 ((gridHeight - ((rows : ℚ) - 1) * g) / rows)
      big :: cellsAt m cols g startY cellWidth cellHeight g g

/-- `case 'single-blur'` of the layout switch: images `1..` tile the whole
canvas (no gap) as a blurred backdrop, then image `0` is drawn centered at
80% × 90% of the canvas. -/
def singleBlurCase (n : ℕ) (W H : ℚ) : List Rect :=
  if n = 0 then []
  else
    let m := n - 1
    let tiles :=
      if 0 < m then
        let cols := max 1 (ceilSqrt m)
        let rows := max 1 (ceilDiv m cols)
        cellsAt m cols 0 0 (W / cols) (H / rows) 0 0
      else []
    let maxW := W * 0.8
    let maxH := H * 0.9
    tiles ++ [⟨(W - maxW) / 2, (H - maxH) / 2, maxW, maxH⟩]

/-- The full layout switch over the mode string (modes are string-literal
union values in the source).  `'freeform'` draws nothing here (the freeform
overlay owns the geometry); unknown modes fall through to the default. -/
def layoutPlacements (mode : String) (n : ℕ) (W H g : ℚ) : List Rect :=
  if mode = "freeform" then []
  else if mode = "grid" then gridCase n W H g
  else if mode = "left-big" then leftRightBigCase true n W H g
  else if mode = "right-big" then leftRightBigCase false n W H g
  else if mode = "top-big" then topBottomBigCase true n W H g
  else if mode = "bottom-big" then topBottomBigCase false n W H g
  else if mode = "single-blur" then singleBlurCase n W H
  else []

/-- The grid algorithm of `case 'grid'` restated for an arbitrary
sub-rectangle — the spec's "remaining images grid-fill the other half using
the same grid algorithm restricted to that sub-rectangle": gap-wide margins
before the first and after the last cell inside the given rectangle. -/
def gridInRect (rx ry rw rh : ℚ) (n : ℕ) (g : ℚ) : List Rect :=
  if n = 0 then []
  else
    let cols := max 1 (ceilSqrt n)
    let rows := max 1 (ceilDiv n cols)
    let cellWidth := max 0 ((rw - ((cols : ℚ) + 1) * g) / cols)
    let cellHeight := max 0 ((rh - ((rows : ℚ) + 1) * g) / rows)
    cellsAt n cols (rx + g) (ry + g) cellWidth cellHeight g g

theorem layoutPlacements_freeform (n : ℕ) (W H g : ℚ) :
    layoutPlacements "freeform" n W H g = [] := rfl

theorem layoutPlacements_grid (n : ℕ) (W H g : ℚ) :
    layoutPlacements "grid" n W H g = gridCase n W H g := rfl

theorem layoutPlacements_leftBig (n : ℕ) (W H g : ℚ) :
    layoutPlacements "left-big" n W H g = leftRightBigCase true n W H g := rfl

theorem layoutPlacements_rightBig (n : ℕ) (W H g : ℚ) :
    layoutPlacements "right-big" n W H g = leftRightBigCase false n W H g := rfl

theorem layoutPlacements_topBig (n : ℕ) (W H g : ℚ) :
    layoutPlacements "top-big" n W H g = topBottomBigCase true n W H g := rfl

theorem layoutPlacements_bottomBig (n : ℕ) (W H g : ℚ) :
    layoutPlacements "bottom-big" n W H g = topBottomBigCase false n W H g := rfl

theorem layoutPlacements_singleBlur (n : ℕ) (W H g : ℚ) :
    layoutPlacements "single-blur" n W H g = singleBlurCase n W H := rfl

theorem gridScenario : layoutPlacements "grid" 4 800 600 16 =
    [⟨16, 16, 376, 276⟩, ⟨408, 16, 376, 276⟩, ⟨16, 308, 376, 276⟩, ⟨408, 308, 376, 276⟩] := by
  rw [layoutPlacements_grid]
  simp only [gridCase, cellsAt, ceilSqrt_four]
  norm_num [ceilDiv, List.range_succ, Rect.mk.injEq]

/-- C1: for every image count `N ≥ 1`, canvas `W × H` and gap `g`, the grid
layout uses `cols = ceil(sqrt N)` columns (the least `k` with `N ≤ k²`) and
`rows = ceil(N / cols)` rows (the least `k` with `N ≤ cols·k`); image `i`
occupies the cell at column `i % cols`, row `i / cols`, of size
`max 0 ((W - (cols+1)g)/cols) × max 0 ((H - (rows+1)g)/rows)`, positioned so
that a gap `g` lies before the first cell, between cells, and after the last
cell on both axes (the cells plus `cols+1` gaps span exactly `W`, and
likewise for rows, whenever the cell size is not clamped at zero); in
particular 4 images on an 800×600 canvas with gap 16 give a 2×2 layout with
cells 376 × 276. -/
theorem grid_layout_spec (n : ℕ) (W H g : ℚ) (hn : 1 ≤ n) :
    (n ≤ ceilSqrt n * ceilSqrt n ∧ ∀ k : ℕ, n ≤ k * k → ceilSqrt n ≤ k) ∧
    (n ≤ ceilSqrt n * ceilDiv n (ceilSqrt n) ∧
      ∀ k : ℕ, n ≤ ceilSqrt n * k → ceilDiv n (ceilSqrt n) ≤ k) ∧
    layoutPlacements "grid" n W H g =
      (List.range n).map (fun i =>
        ⟨g + (i % ceilSqrt n : ℕ) *
            (max 0 ((W - ((ceilSqrt n : ℚ) + 1) * g) / (ceilSqrt n : ℚ)) + g),
         g + (i / ceilSqrt n : ℕ) *
            (max 0 ((H - ((ceilDiv n (ceilSqrt n) : ℚ) + 1) * g) /
              (ceilDiv n (ceilSqrt n) : ℚ)) + g),
         max 0 ((W - ((ceilSqrt n : ℚ) + 1) * g) / (ceilSqrt n : ℚ)),
         max 0 ((H - ((ceilDiv n (ceilSqrt n) : ℚ) + 1) * g) /
           (ceilDiv n (ceilSqrt n) : ℚ))⟩) ∧
    (0 ≤ (W - ((ceilSqrt n : ℚ) + 1) * g) / (ceilSqrt n : ℚ) →
      ((ceilSqrt n : ℚ) + 1) * g + (ceilSqrt n : ℚ) *
        max 0 ((W - ((ceilSqrt n : ℚ) + 1) * g) / (ceilSqrt n : ℚ)) = W) ∧
    (0 ≤ (H - ((ceilDiv n (ceilSqrt n) : ℚ) + 1) * g) / (ceilDiv n (ceilSqrt n) : ℚ) →
      ((ceilDiv n (ceilSqrt n) : ℚ) + 1) * g + (ceilDiv n (ceilSqrt n) : ℚ) *
        max 0 ((H - ((ceilDiv n (ceilSqrt n) : ℚ) + 1) * g) / (ceilDiv n (ceilSqrt n) : ℚ)) = H) ∧
    layoutPlacements "grid" 4 800 600 16 =
      [⟨16, 16, 376, 276⟩, ⟨408, 16, 376, 276⟩, ⟨16, 308, 376, 276⟩, ⟨408, 308, 376, 276⟩] := by
  have hcs : 1 ≤ ceilSqrt n := one_le_ceilSqrt n hn
  have hcd : 1 ≤ ceilDiv n (ceilSqrt n) := one_le_ceilDiv n (ceilSqrt n) hn hcs
  have hcsQ : (0 : ℚ) < (ceilSqrt n : ℚ) := by exact_mod_cast hcs
  have hcdQ : (0 : ℚ) < (ceilDiv n (ceilSqrt n) : ℚ) := by exact_mod_cast hcd
  refine ⟨⟨le_ceilSqrt_sq n, fun k hk => ceilSqrt_least n k hk⟩,
    ⟨le_mul_ceilDiv n (ceilSqrt n) hcs, fun k hk => ceilDiv_least n (ceilSqrt n) k hcs hk⟩,
    ?_, ?_, ?_, ?_⟩
  · rw [layoutPlacements_grid]
    unfold gridCase cellsAt
    simp only [if_neg (show ¬ n = 0 by omega), max_eq_right hcs, max_eq_right hcd]
  · intro h0
    rw [max_eq_right h0]
    field_simp
  · intro h0
    rw [max_eq_right h0]
    field_simp
  · exact gridScenario

/-- C1 witness at the spec scenario: 4 images, 800×600, gap 16. -/
theorem grid_layout_spec_witness :
    (1 : ℕ) ≤ 4 ∧ layoutPlacements "grid" 4 800 600 16 =
      [⟨16, 16, 376, 276⟩, ⟨408, 16, 376, 276⟩, ⟨16, 308, 376, 276⟩, ⟨408, 308, 376, 276⟩] :=
  ⟨by norm_num, (grid_layout_spec 4 800 600 16 (by norm_num)).2.2.2.2.2⟩

/-- Double clamping (`Math.max(0, ...)` applied to the available width and
then to the cell width) agrees with clamping only the cell width. -/
theorem clamp_shift (X B c : ℚ) (hB : 0 ≤ B) (hc : 0 < c) :
    max 0 ((max 0 X - B) / c) = max 0 ((X - B) / c) := by
  rcases le_or_lt 0 X with h | h
  · rw [max_eq_right h]
  · rw [max_eq_left h.le]
    have h1 : (0 - B) / c ≤ 0 := div_nonpos_iff.mpr (Or.inr ⟨by linarith, hc.le⟩)
    have h2 : (X - B) / c ≤ 0 := div_nonpos_iff.mpr (Or.inr ⟨by linarith, hc.le⟩)
    rw [max_eq_left h1, max_eq_left h2]

theorem cw_big_side (W g : ℚ) (cols : ℕ) (hg : 0 ≤ g) (hcols : 1 ≤ cols) :
    max 0 ((max 0 (W / 2 - g * 1.5) - ((cols : ℚ) - 1) * g) / (cols : ℚ)) =
    max 0 ((W / 2 + g / 2 - ((cols : ℚ) + 1) * g) / (cols : ℚ)) := by
  have hc : (0 : ℚ) < (cols : ℚ) := by exact_mod_cast hcols
  have h1 : (1 : ℚ) ≤ (cols : ℚ) := by exact_mod_cast hcols
  have hB : 0 ≤ ((cols : ℚ) - 1) * g := mul_nonneg (by linarith) hg
  rw [clamp_shift _ _ _ hB hc]
  congr 1
  ring

theorem leftRightBig_head (b : Bool) (n : ℕ) (W H g : ℚ) (hn : 1 ≤ n) :
    (leftRightBigCase b n W H g).head? =
      some ⟨if b then g else W / 2 + g / 2, g, max 0 (W / 2 - g * 1.5), max 0 (H - g * 2)⟩ := by
  unfold leftRightBigCase
  rw [if_neg (by omega : ¬ n = 0)]
  by_cases h1 : n ≤ 1 <;> simp [h1]

theorem topBottomBig_head (b : Bool) (n : ℕ) (W H g : ℚ) (hn : 1 ≤ n) :
    (topBottomBigCase b n W H g).head? =
      some ⟨g, if b then g else H / 2 + g / 2, max 0 (W - g * 2), max 0 (H / 2 - g * 1.5)⟩ := by
  unfold topBottomBigCase
  rw [if_neg (by omega : ¬ n = 0)]
  by_cases h1 : n ≤ 1 <;> simp [h1]

theorem leftBig_tail_grid (n : ℕ) (W H g : ℚ) (hn : 2 ≤ n) (hg : 0 ≤ g) :
    (leftRightBigCase true n W H g).tail =
      gridInRect (W / 2 - g / 2) 0 (W / 2 + g / 2) H (n - 1) g := by
  have hcols : 1 ≤ max 1 (ceilSqrt (n - 1)) := le_max_left _ _
  unfold leftRightBigCase gridInRect
  rw [if_neg (by omega : ¬ n = 0), if_neg (by omega : ¬ n ≤ 1), if_neg (by omega : ¬ n - 1 = 0)]
  simp only [List.tail_cons, if_true]
  rw [cw_big_side W g _ hg hcols]
  rw [show (W / 2 - g / 2 : ℚ) + g = W / 2 + g / 2 by ring, show (0 : ℚ) + g = g by ring]

theorem rightBig_tail_grid (n : ℕ) (W H g : ℚ) (hn : 2 ≤ n) (hg : 0 ≤ g) :
    (leftRightBigCase false n W H g).tail =
      gridInRect 0 0 (W / 2 + g / 2) H (n - 1) g := by
  have hcols : 1 ≤ max 1 (ceilSqrt (n - 1)) := le_max_left _ _
  unfold leftRightBigCase gridInRect
  rw [if_neg (by omega : ¬ n = 0), if_neg (by omega : ¬ n ≤ 1), if_neg (by omega : ¬ n - 1 = 0)]
  simp only [List.tail_cons, if_false, Bool.false_eq_true]
  rw [cw_big_side W g _ hg hcols]
  rw [show (0 : ℚ) + g = g by ring]

theorem topBig_tail_grid (n : ℕ) (W H g : ℚ) (hn : 2 ≤ n) (hg : 0 ≤ g) :
    (topBottomBigCase true n W H g).tail =
      gridInRect 0 (H / 2 - g / 2) W (H / 2 + g / 2) (n - 1) g := by
  have hrows : 1 ≤ max 1 (ceilDiv (n - 1) (max 1 (ceilSqrt (n - 1)))) := le_max_left _ _
  unfold topBottomBigCase gridInRect
  rw [if_neg (by omega : ¬ n = 0), if_neg (by omega : ¬ n ≤ 1), if_neg (by omega : ¬ n - 1 = 0)]
  simp only [List.tail_cons, if_true]
  rw [cw_big_side H g _ hg hrows]
  rw [show (H / 2 - g / 2 : ℚ) + g = H / 2 + g / 2 by ring, show (0 : ℚ) + g = g by ring]

theorem bottomBig_tail_grid (n : ℕ) (W H g : ℚ) (hn : 2 ≤ n) (hg : 0 ≤ g) :
    (topBottomBigCase false n W H g).tail =
      gridInRect 0 0 W (H / 2 + g / 2) (n - 1) g := by
  have hrows : 1 ≤ max 1 (ceilDiv (n - 1) (max 1 (ceilSqrt (n - 1)))) := le_max_left _ _
  unfold topBottomBigCase gridInRect
  rw [if_neg (by omega : ¬ n = 0), if_neg (by omega : ¬ n ≤ 1), if_neg (by omega : ¬ n - 1 = 0)]
  simp only [List.tail_cons, if_false, Bool.false_eq_true]
  rw [cw_big_side H g _ hg hrows]
  rw [show (0 : ℚ) + g = g by ring]

/-- C3: in each big-layout mode with `N ≥ 1` images, the distinguished image
occupies half the canvas along the split axis — its rectangle spans the half
minus `1.5·gap` on the split axis (clamped at zero) with gap margins on the
other axis — and for `N ≥ 2` the remaining `N-1` images are laid out by the
same grid algorithm (same column/row counts, gap-separated, with a gap before
the first and after the last cell) restricted to the sub-rectangle reaching
from half a gap inside the split line to the far canvas edge; in particular
for `left-big`, placement 0 is `⟨g, g, W/2 - 1.5g, H - 2g⟩` and placements
`1..` grid-fill the right half. -/
theorem bigLayouts_spec (n : ℕ) (W H g : ℚ) (hn : 1 ≤ n) (hg : 0 ≤ g) :
    (layoutPlacements "left-big" n W H g).head? =
      some ⟨g, g, max 0 (W / 2 - g * 1.5), max 0 (H - g * 2)⟩ ∧
    (layoutPlacements "right-big" n W H g).head? =
      some ⟨W / 2 + g / 2, g, max 0 (W / 2 - g * 1.5), max 0 (H - g * 2)⟩ ∧
    (layoutPlacements "top-big" n W H g).head? =
      some ⟨g, g, max 0 (W - g * 2), max 0 (H / 2 - g * 1.5)⟩ ∧
    (layoutPlacements "bottom-big" n W H g).head? =
      some ⟨g, H / 2 + g / 2, max 0 (W - g * 2), max 0 (H / 2 - g * 1.5)⟩ ∧
    (2 ≤ n →
      (layoutPlacements "left-big" n W H g).tail =
        gridInRect (W / 2 - g / 2) 0 (W / 2 + g / 2) H (n - 1) g ∧
      (layoutPlacements "right-big" n W H g).tail =
        gridInRect 0 0 (W / 2 + g / 2) H (n - 1) g ∧
      (layoutPlacements "top-big" n W H g).tail =
        gridInRect 0 (H / 2 - g / 2) W (H / 2 + g / 2) (n - 1) g ∧
      (layoutPlacements "bottom-big" n W H g).tail =
        gridInRect 0 0 W (H / 2 + g / 2) (n - 1) g) := by
  rw [layoutPlacements_leftBig, layoutPlacements_rightBig, layoutPlacements_topBig,
    layoutPlacements_bottomBig]
  refine ⟨?_, ?_, ?_, ?_, fun h2 => ⟨leftBig_tail_grid n W H g h2 hg,
    rightBig_tail_grid n W H g h2 hg, topBig_tail_grid n W H g h2 hg,
    bottomBig_tail_grid n W H g h2 hg⟩⟩
  · simpa using leftRightBig_head true n W H g hn
  · simpa using leftRightBig_head false n W H g hn
  · simpa using topBottomBig_head true n W H g hn
  · simpa using topBottomBig_head false n W H g hn

/-- C3 witness: `left-big`, 3 images, big image index 0, 800×600, gap 16. -/
theorem bigLayouts_spec_witness :
    (layoutPlacements "left-big" 3 800 600 16).head? =
      some ⟨16, 16, max 0 (800 / 2 - 16 * 1.5), max 0 (600 - 16 * 2)⟩ ∧
    (layoutPlacements "left-big" 3 800 600 16).tail =
      gridInRect (800 / 2 - 16 / 2) 0 (800 / 2 + 16 / 2) 600 (3 - 1) 16 :=
  ⟨(bigLayouts_spec 3 800 600 16 (by norm_num) (by norm_num)).1,
   ((bigLayouts_spec 3 800 600 16 (by norm_num) (by norm_num)).2.2.2.2 (by norm_num)).1⟩

/-! ## Non-overlap and containment of placements -/

theorem not_overlaps_of_sep_right (a b : Rect) (h : a.x + a.w ≤ b.x) : ¬ overlaps a b := by
  rintro ⟨h1, -⟩
  have hA : min (a.x + a.w) (b.x + b.w) ≤ a.x + a.w := min_le_left _ _
  have hB : b.x ≤ max a.x b.x := le_max_right _ _
  linarith

theorem not_overlaps_of_sep_left (a b : Rect) (h : b.x + b.w ≤ a.x) : ¬ overlaps a b := by
  rintro ⟨h1, -⟩
  have hA : min (a.x + a.w) (b.x + b.w) ≤ b.x + b.w := min_le_right _ _
  have hB : a.x ≤ max a.x b.x := le_max_left _ _
  linarith

theorem not_overlaps_of_sep_below (a b : Rect) (h : a.y + a.h ≤ b.y) : ¬ overlaps a b := by
  rintro ⟨-, h2⟩
  have hA : min (a.y + a.h) (b.y + b.h) ≤ a.y + a.h := min_le_left _ _
  have hB : b.y ≤ max a.y b.y := le_max_right _ _
  linarith

theorem not_overlaps_of_sep_above (a b : Rect) (h : b.y + b.h ≤ a.y) : ¬ overlaps a b := by
  rintro ⟨-, h2⟩
  have hA : min (a.y + a.h) (b.y + b.h) ≤ b.y + b.h := min_le_right _ _
  have hB : a.y ≤ max a.y b.y := le_max_left _ _
  linarith

/-- A rectangle with non-positive width has empty interior and overlaps
nothing. -/
theorem not_overlaps_of_deg_left (a b : Rect) (h : a.w ≤ 0) : ¬ overlaps a b := by
  rintro ⟨h1, -⟩
  have hA : min (a.x + a.w) (b.x + b.w) ≤ a.x + a.w := min_le_left _ _
  have hB : a.x ≤ max a.x b.x := le_max_left _ _
  linarith

theorem not_overlaps_of_deg_right (a b : Rect) (h : b.w ≤ 0) : ¬ overlaps a b := by
  rintro ⟨h1, -⟩
  have hA : min (a.x + a.w) (b.x + b.w) ≤ b.x + b.w := min_le_right _ _
  have hB : b.x ≤ max a.x b.x := le_max_right _ _
  linarith

theorem pos_of_max_pos (a : ℚ) (h : 0 < max 0 a) : max 0 a = a := by
  rcases le_or_lt a 0 with ha | ha
  · rw [max_eq_left ha] at h; exact absurd h (lt_irrefl 0)
  · exact max_eq_right ha.le

/-- Cells laid out by the `forEach` loops never overlap: distinct indices get
distinct (column, row) pairs, and consecutive columns/rows are separated by
the (nonnegative) gap. -/
theorem cellsAt_pairwise (n cols : ℕ) (sx sy cw ch gx gy : ℚ) (hcols : 0 < cols)
    (hcw : 0 ≤ cw) (hch : 0 ≤ ch) (hgx : 0 ≤ gx) (hgy : 0 ≤ gy) :
    (cellsAt n cols sx sy cw ch gx gy).Pairwise (fun a b => ¬ overlaps a b) := by
  unfold cellsAt
  rw [List.pairwise_map]
  refine (List.pairwise_lt_range n).imp ?_
  intro i j hij
  rcases Nat.lt_trichotomy (i % cols) (j % cols) with hc | hc | hc
  · apply not_overlaps_of_sep_right
    simp only
    have h1 : ((i % cols : ℕ) : ℚ) + 1 ≤ ((j % cols : ℕ) : ℚ) := by exact_mod_cast hc
    nlinarith [mul_le_mul_of_nonneg_right h1 (by linarith : (0 : ℚ) ≤ cw + gx)]
  · have hrow : i / cols < j / cols := by
      by_contra hle
      push_neg at hle
      have h2 : cols * (j / cols) ≤ cols * (i / cols) := Nat.mul_le_mul_left cols hle
      have hji : j ≤ i := by
        calc j = cols * (j / cols) + j % cols := (Nat.div_add_mod j cols).symm
          _ ≤ cols * (i / cols) + i % cols := by rw [← hc]; omega
          _ = i := Nat.div_add_mod i cols
      omega
    apply not_overlaps_of_sep_below
    simp only
    have h1 : ((i / cols : ℕ) : ℚ) + 1 ≤ ((j / cols : ℕ) : ℚ) := by exact_mod_cast hrow
    nlinarith [mul_le_mul_of_nonneg_right h1 (by linarith : (0 : ℚ) ≤ ch + gy)]
  · apply not_overlaps_of_sep_left
    simp only
    have h1 : ((j % cols : ℕ) : ℚ) + 1 ≤ ((i % cols : ℕ) : ℚ) := by exact_mod_cast hc
    nlinarith [mul_le_mul_of_nonneg_right h1 (by linarith : (0 : ℚ) ≤ cw + gx)]

/-- Bounds for every cell laid out by the `forEach` loops, provided the cell
count fits in the `cols × rows` grid. -/
theorem cellsAt_mem_bounds (n cols rows : ℕ) (sx sy cw ch gx gy : ℚ)
    (hcols : 0 < cols) (hn : n ≤ cols * rows) (hcw : 0 ≤ cw) (hch : 0 ≤ ch)
    (hgx : 0 ≤ gx) (hgy : 0 ≤ gy) :
    ∀ r ∈ cellsAt n cols sx sy cw ch gx gy,
      r.w = cw ∧ r.h = ch ∧ sx ≤ r.x ∧ sy ≤ r.y ∧
      r.x + cw ≤ sx + (cols : ℚ) * cw + ((cols : ℚ) - 1) * gx ∧
      r.y + ch ≤ sy + (rows : ℚ) * ch + ((rows : ℚ) - 1) * gy := by
  intro r hr
  simp only [cellsAt, List.mem_map, List.mem_range] at hr
  obtain ⟨i, hi, rfl⟩ := hr
  have hcolN : i % cols + 1 ≤ cols := Nat.mod_lt i hcols
  have hrowN : i / cols < rows := by
    rw [Nat.div_lt_iff_lt_mul hcols]
    calc i < n := hi
      _ ≤ cols * rows := hn
      _ = rows * cols := Nat.mul_comm _ _
  have hcolQ : ((i % cols : ℕ) : ℚ) ≤ (cols : ℚ) - 1 := by
    have : ((i % cols + 1 : ℕ) : ℚ) ≤ ((cols : ℕ) : ℚ) := by exact_mod_cast hcolN
    push_cast at this
    linarith
  have hrowQ : ((i / cols : ℕ) : ℚ) ≤ (rows : ℚ) - 1 := by
    have : ((i / cols + 1 : ℕ) : ℚ) ≤ ((rows : ℕ) : ℚ) := by exact_mod_cast hrowN
    push_cast at this
    linarith
  have hx0 : (0 : ℚ) ≤ ((i % cols : ℕ) : ℚ) * (cw + gx) :=
    mul_nonneg (by positivity) (by linarith)
  have hy0 : (0 : ℚ) ≤ ((i / cols : ℕ) : ℚ) * (ch + gy) :=
    mul_nonneg (by positivity) (by linarith)
  have hxU : ((i % cols : ℕ) : ℚ) * (cw + gx) ≤ ((cols : ℚ) - 1) * (cw + gx) :=
    mul_le_mul_of_nonneg_right hcolQ (by linarith)
  have hyU : ((i / cols : ℕ) : ℚ) * (ch + gy) ≤ ((rows : ℚ) - 1) * (ch + gy) :=
    mul_le_mul_of_nonneg_right hrowQ (by linarith)
  refine ⟨rfl, rfl, by simp only; linarith, by simp only; linarith, ?_, ?_⟩
  · simp only
    nlinarith [hxU]
  · simp only
    nlinarith [hyU]

theorem n_le_cells (n : ℕ) :
    n ≤ max 1 (ceilSqrt n) * max 1 (ceilDiv n (max 1 (ceilSqrt n))) := by
  rcases Nat.eq_zero_or_pos n with h | h
  · simp [h]
  · have hcols : 0 < max 1 (ceilSqrt n) := lt_of_lt_of_le one_pos (le_max_left _ _)
    calc n ≤ max 1 (ceilSqrt n) * ceilDiv n (max 1 (ceilSqrt n)) :=
          le_mul_ceilDiv n _ hcols
      _ ≤ _ := Nat.mul_le_mul_left _ (le_max_right _ _)

theorem gridCase_pairwise (n : ℕ) (W H g : ℚ) (hg : 0 ≤ g) :
    (gridCase n W H g).Pairwise (fun a b => ¬ overlaps a b) := by
  unfold gridCase
  split
  · exact List.Pairwise.nil
  · exact cellsAt_pairwise _ _ _ _ _ _ _ _
      (lt_of_lt_of_le one_pos (le_max_left _ _))
      (le_max_left _ _) (le_max_left _ _) hg hg

theorem gridCase_inside (n : ℕ) (W H g : ℚ) (hW : 0 ≤ W) (hH : 0 ≤ H) (hg : 0 ≤ g) :
    ∀ r ∈ gridCase n W H g, 0 < r.w → 0 < r.h → insideCanvas W H r := by
  unfold gridCase
  split
  · intro r hr
    simp at hr
  · intro r hr hw hh
    have hcols : 0 < max 1 (ceilSqrt n) := lt_of_lt_of_le one_pos (le_max_left _ _)
    have hrows : 0 < max 1 (ceilDiv n (max 1 (ceilSqrt n))) :=
      lt_of_lt_of_le one_pos (le_max_left _ _)
    obtain ⟨hrw, hrh, hx1, hy1, hx2, hy2⟩ :=
      cellsAt_mem_bounds n (max 1 (ceilSqrt n)) (max 1 (ceilDiv n (max 1 (ceilSqrt n))))
        g g _ _ g g hcols (n_le_cells n) (le_max_left _ _) (le_max_left _ _) hg hg r hr
    have hcolsQ : (0 : ℚ) < ((max 1 (ceilSqrt n) : ℕ) : ℚ) := by exact_mod_cast hcols
    have hrowsQ : (0 : ℚ) < ((max 1 (ceilDiv n (max 1 (ceilSqrt n))) : ℕ) : ℚ) := by
      exact_mod_cast hrows
    have hcw : max 0 ((W - (((max 1 (ceilSqrt n) : ℕ) : ℚ) + 1) * g) /
        ((max 1 (ceilSqrt n) : ℕ) : ℚ)) =
        (W - (((max 1 (ceilSqrt n) : ℕ) : ℚ) + 1) * g) / ((max 1 (ceilSqrt n) : ℕ) : ℚ) :=
      pos_of_max_pos _ (hrw ▸ hw)
    have hch : max 0 ((H - (((max 1 (ceilDiv n (max 1 (ceilSqrt n))) : ℕ) : ℚ) + 1) * g) /
        ((max 1 (ceilDiv n (max 1 (ceilSqrt n))) : ℕ) : ℚ)) =
        (H - (((max 1 (ceilDiv n (max 1 (ceilSqrt n))) : ℕ) : ℚ) + 1) * g) /
          ((max 1 (ceilDiv n (max 1 (ceilSqrt n))) : ℕ) : ℚ) :=
      pos_of_max_pos _ (hrh ▸ hh)
    have hmulW : ((max 1 (ceilSqrt n) : ℕ) : ℚ) *
        ((W - (((max 1 (ceilSqrt n) : ℕ) : ℚ) + 1) * g) / ((max 1 (ceilSqrt n) : ℕ) : ℚ)) =
        W - (((max 1 (ceilSqrt n) : ℕ) : ℚ) + 1) * g := by
      field_simp
    have hmulH : ((max 1 (ceilDiv n (max 1 (ceilSqrt n))) : ℕ) : ℚ) *
        ((H - (((max 1 (ceilDiv n (max 1 (ceilSqrt n))) : ℕ) : ℚ) + 1) * g) /
          ((max 1 (ceilDiv n (max 1 (ceilSqrt n))) : ℕ) : ℚ)) =
        H - (((max 1 (ceilDiv n (max 1 (ceilSqrt n))) : ℕ) : ℚ) + 1) * g := by
      field_simp
    rw [hcw] at hrw hx2
    rw [hch] at hrh hy2
    refine ⟨by linarith, by linarith, ?_, ?_⟩
    · rw [hrw]
      nlinarith [hx2, hmulW]
    · rw [hrh]
      nlinarith [hy2, hmulH]

theorem leftRightBig_pairwise (b : Bool) (n : ℕ) (W H g : ℚ) (hg : 0 ≤ g) :
    (leftRightBigCase b n W H g).Pairwise (fun a c => ¬ overlaps a c) := by
  unfold leftRightBigCase
  by_cases h0 : n = 0
  · rw [if_pos h0]; exact List.Pairwise.nil
  rw [if_neg h0]
  by_cases h1 : n ≤ 1
  · rw [if_pos h1]; exact List.pairwise_singleton _ _
  rw [if_neg h1]
  have hcols : 0 < max 1 (ceilSqrt (n - 1)) := lt_of_lt_of_le one_pos (le_max_left _ _)
  refine List.pairwise_cons.mpr ⟨?_, cellsAt_pairwise _ _ _ _ _ _ _ _ hcols
    (le_max_left _ _) (le_max_left _ _) hg hg⟩
  intro cell hcell
  set m := n - 1 with hm
  set cols := max 1 (ceilSqrt m) with hcolsdef
  set rows := max 1 (ceilDiv m cols) with hrowsdef
  set avail := max 0 (W / 2 - g * 1.5) with havaildef
  set cw := max 0 ((avail - ((cols : ℚ) - 1) * g) / (cols : ℚ)) with hcwdef
  set ch := max 0 ((H - ((rows : ℚ) + 1) * g) / (rows : ℚ)) with hchdef
  obtain ⟨hcw', hch', hx1, hy1, hx2, hy2⟩ :=
    cellsAt_mem_bounds m cols rows _ g cw ch g g hcols (n_le_cells m)
      (le_max_left _ _) (le_max_left _ _) hg hg cell hcell
  rcases le_or_lt cw 0 with hcwz | hcwp
  · exact not_overlaps_of_deg_right _ _ (hcw' ▸ hcwz)
  · have hcolsQ : (0 : ℚ) < (cols : ℚ) := by exact_mod_cast hcols
    have hcols1 : (1 : ℚ) ≤ (cols : ℚ) := by exact_mod_cast hcols
    have hcw_eq : cw = (avail - ((cols : ℚ) - 1) * g) / (cols : ℚ) :=
      pos_of_max_pos _ hcwp
    have hnum_pos : 0 < avail - ((cols : ℚ) - 1) * g := by
      by_contra hc
      push_neg at hc
      have : (avail - ((cols : ℚ) - 1) * g) / (cols : ℚ) ≤ 0 :=
        div_nonpos_iff.mpr (Or.inr ⟨hc, hcolsQ.le⟩)
      rw [← hcw_eq] at this
      linarith
    have havail_pos : 0 < avail := by nlinarith [mul_nonneg (sub_nonneg.mpr hcols1) hg]
    have havail_eq : avail = W / 2 - g * 1.5 := pos_of_max_pos _ havail_pos
    have hmul : (cols : ℚ) * cw = avail - ((cols : ℚ) - 1) * g := by
      rw [hcw_eq]
      field_simp
    cases b
    · -- right-big: the big image sits in the right half, cells end left of it
      apply not_overlaps_of_sep_left
      simp only [Bool.false_eq_true, if_false]
      simp only [Bool.false_eq_true, if_false] at hx1 hx2
      rw [hcw']
      linarith [hx2, hmul, havail_eq, hg]
    · -- left-big: the big image ends at W/2 - g/2, cells start at W/2 + g/2
      apply not_overlaps_of_sep_right
      simp only [if_true]
      simp only [if_true] at hx1
      linarith [hx1, havail_eq, hg]

theorem leftRightBig_inside (b : Bool) (n : ℕ) (W H g : ℚ)
    (hW : 0 ≤ W) (hH : 0 ≤ H) (hg : 0 ≤ g) :
    ∀ r ∈ leftRightBigCase b n W H g, 0 < r.w → 0 < r.h → insideCanvas W H r := by
  have hbig : ∀ r : Rect,
      r = ⟨if b then g else W / 2 + g / 2, g, max 0 (W / 2 - g * 1.5), max 0 (H - g * 2)⟩ →
      0 < r.w → 0 < r.h → insideCanvas W H r := by
    rintro r rfl hw hh
    simp only at hw hh
    have hweq : max 0 (W / 2 - g * 1.5) = W / 2 - g * 1.5 := pos_of_max_pos _ hw
    have hheq : max 0 (H - g * 2) = H - g * 2 := pos_of_max_pos _ hh
    cases b
    · simp only [Bool.false_eq_true, if_false]
      exact ⟨by linarith, hg, by simp only; rw [hweq]; linarith,
        by simp only; rw [hheq]; linarith⟩
    · simp only [if_true]
      exact ⟨hg, hg, by simp only; rw [hweq]; linarith,
        by simp only; rw [hheq]; linarith⟩
  unfold leftRightBigCase
  by_cases h0 : n = 0
  · rw [if_pos h0]
    intro r hr
    simp at hr
  rw [if_neg h0]
  by_cases h1 : n ≤ 1
  · rw [if_pos h1]
    intro r hr
    rw [List.mem_singleton] at hr
    exact hbig r hr
  rw [if_neg h1]
  intro r hr
  rcases List.mem_cons.mp hr with hr | hr
  · exact hbig r hr
  intro hw hh
  have hcols : 0 < max 1 (ceilSqrt (n - 1)) := lt_of_lt_of_le one_pos (le_max_left _ _)
  set m := n - 1 with hm
  set cols := max 1 (ceilSqrt m) with hcolsdef
  set rows := max 1 (ceilDiv m cols) with hrowsdef
  have hrows : 0 < rows := lt_of_lt_of_le one_pos (le_max_left _ _)
  set avail := max 0 (W / 2 - g * 1.5) with havaildef
  set cw := max 0 ((avail - ((cols : ℚ) - 1) * g) / (cols : ℚ)) with hcwdef
  set ch := max 0 ((H - ((rows : ℚ) + 1) * g) / (rows : ℚ)) with hchdef
  obtain ⟨hcw', hch', hx1, hy1, hx2, hy2⟩ :=
    cellsAt_mem_bounds m cols rows _ g cw ch g g hcols (n_le_cells m)
      (le_max_left _ _) (le_max_left _ _) hg hg r hr
  have hcolsQ : (0 : ℚ) < (cols : ℚ) := by exact_mod_cast hcols
  have hrowsQ : (0 : ℚ) < (rows : ℚ) := by exact_mod_cast hrows
  have hcols1 : (1 : ℚ) ≤ (cols : ℚ) := by exact_mod_cast hcols
  have hcwp : 0 < cw := hcw' ▸ hw
  have hchp : 0 < ch := hch' ▸ hh
  have hcw_eq : cw = (avail - ((cols : ℚ) - 1) * g) / (cols : ℚ) := pos_of_max_pos _ hcwp
  have hch_eq : ch = (H - ((rows : ℚ) + 1) * g) / (rows : ℚ) := pos_of_max_pos _ hchp
  have hnum_pos : 0 < avail - ((cols : ℚ) - 1) * g := by
    by_contra hc
    push_neg at hc
    have : (avail - ((cols : ℚ) - 1) * g) / (cols : ℚ) ≤ 0 :=
      div_nonpos_iff.mpr (Or.inr ⟨hc, hcolsQ.le⟩)
    rw [← hcw_eq] at this
    linarith
  have havail_pos : 0 < avail := by nlinarith [mul_nonneg (sub_nonneg.mpr hcols1) hg]
  have havail_eq : avail = W / 2 - g * 1.5 := pos_of_max_pos _ havail_pos
  have hmul : (cols : ℚ) * cw = avail - ((cols : ℚ) - 1) * g := by
    rw [hcw_eq]; field_simp
  have hmulH : (rows : ℚ) * ch = H - ((rows : ℚ) + 1) * g := by
    rw [hch_eq]; field_simp
  refine ⟨?_, by linarith, ?_, ?_⟩
  · cases b
    · simp only [Bool.false_eq_true, if_false] at hx1
      linarith
    · simp only [if_true] at hx1
      linarith
  · rw [hcw']
    cases b
    · simp only [Bool.false_eq_true, if_false] at hx2
      linarith [hx2, hmul, havail_eq]
    · simp only [if_true] at hx2
      linarith [hx2, hmul, havail_eq]
  · rw [hch']
    linarith [hy2, hmulH]

theorem not_overlaps_of_deg_h_right (a b : Rect) (h : b.h ≤ 0) : ¬ overlaps a b := by
  rintro ⟨-, h2⟩
  have hA : min (a.y + a.h) (b.y + b.h) ≤ b.y + b.h := min_le_right _ _
  have hB : b.y ≤ max a.y b.y := le_max_right _ _
  linarith

theorem topBottomBig_pairwise (b : Bool) (n : ℕ) (W H g : ℚ) (hg : 0 ≤ g) :
    (topBottomBigCase b n W H g).Pairwise (fun a c => ¬ overlaps a c) := by
  unfold topBottomBigCase
  by_cases h0 : n = 0
  · rw [if_pos h0]; exact List.Pairwise.nil
  rw [if_neg h0]
  by_cases h1 : n ≤ 1
  · rw [if_pos h1]; exact List.pairwise_singleton _ _
  rw [if_neg h1]
  have hcols : 0 < max 1 (ceilSqrt (n - 1)) := lt_of_lt_of_le one_pos (le_max_left _ _)
  refine List.pairwise_cons.mpr ⟨?_, cellsAt_pairwise _ _ _ _ _ _ _ _ hcols
    (le_max_left _ _) (le_max_left _ _) hg hg⟩
  intro cell hcell
  set m := n - 1 with hm
  set cols := max 1 (ceilSqrt m) with hcolsdef
  set rows := max 1 (ceilDiv m cols) with hrowsdef
  have hrows : 0 < rows := lt_of_lt_of_le one_pos (le_max_left _ _)
  set gridH := max 0 (H / 2 - g * 1.5) with hgridHdef
  set cw := max 0 ((W - ((cols : ℚ) + 1) * g) / (cols : ℚ)) with hcwdef
  set ch := max 0 ((gridH - ((rows : ℚ) - 1) * g) / (rows : ℚ)) with hchdef
  obtain ⟨hcw', hch', hx1, hy1, hx2, hy2⟩ :=
    cellsAt_mem_bounds m cols rows g _ cw ch g g hcols (n_le_cells m)
      (le_max_left _ _) (le_max_left _ _) hg hg cell hcell
  rcases le_or_lt ch 0 with hchz | hchp
  · exact not_overlaps_of_deg_h_right _ _ (hch' ▸ hchz)
  · have hrowsQ : (0 : ℚ) < (rows : ℚ) := by exact_mod_cast hrows
    have hrows1 : (1 : ℚ) ≤ (rows : ℚ) := by exact_mod_cast hrows
    have hch_eq : ch = (gridH - ((rows : ℚ) - 1) * g) / (rows : ℚ) :=
      pos_of_max_pos _ hchp
    have hnum_pos : 0 < gridH - ((rows : ℚ) - 1) * g := by
      by_contra hc
      push_neg at hc
      have : (gridH - ((rows : ℚ) - 1) * g) / (rows : ℚ) ≤ 0 :=
        div_nonpos_iff.mpr (Or.inr ⟨hc, hrowsQ.le⟩)
      rw [← hch_eq] at this
      linarith
    have hgridH_pos : 0 < gridH := by nlinarith [mul_nonneg (sub_nonneg.mpr hrows1) hg]
    have hgridH_eq : gridH = H / 2 - g * 1.5 := pos_of_max_pos _ hgridH_pos
    have hmul : (rows : ℚ) * ch = gridH - ((rows : ℚ) - 1) * g := by
      rw [hch_eq]; field_simp
    cases b
    · -- bottom-big: the big image sits in the bottom half, cells end above it
      apply not_overlaps_of_sep_above
      simp only [Bool.false_eq_true, if_false]
      simp only [Bool.false_eq_true, if_false] at hy1 hy2
      rw [hch']
      linarith [hy2, hmul, hgridH_eq, hg]
    · -- top-big: the big image ends at H/2 - g/2, cells start at H/2 + g/2
      apply not_overlaps_of_sep_below
      simp only [if_true]
      simp only [if_true] at hy1
      linarith [hy1, hgridH_eq, hg]

theorem topBottomBig_inside (b : Bool) (n : ℕ) (W H g : ℚ)
    (hW : 0 ≤ W) (hH : 0 ≤ H) (hg : 0 ≤ g) :
    ∀ r ∈ topBottomBigCase b n W H g, 0 < r.w → 0 < r.h → insideCanvas W H r := by
  have hbig : ∀ r : Rect,
      r = ⟨g, if b then g else H / 2 + g / 2, max 0 (W - g * 2), max 0 (H / 2 - g * 1.5)⟩ →
      0 < r.w → 0 < r.h → insideCanvas W H r := by
    rintro r rfl hw hh
    simp only at hw hh
    have hweq : max 0 (W - g * 2) = W - g * 2 := pos_of_max_pos _ hw
    have hheq : max 0 (H / 2 - g * 1.5) = H / 2 - g * 1.5 := pos_of_max_pos _ hh
    cases b
    · simp only [Bool.false_eq_true, if_false]
      exact ⟨hg, by linarith, by simp only; rw [hweq]; linarith,
        by simp only; rw [hheq]; linarith⟩
    · simp only [if_true]
      exact ⟨hg, hg, by simp only; rw [hweq]; linarith,
        by simp only; rw [hheq]; linarith⟩
  unfold topBottomBigCase
  by_cases h0 : n = 0
  · rw [if_pos h0]
    intro r hr
    simp at hr
  rw [if_neg h0]
  by_cases h1 : n ≤ 1
  · rw [if_pos h1]
    intro r hr
    rw [List.mem_singleton] at hr
    exact hbig r hr
  rw [if_neg h1]
  intro r hr
  rcases List.mem_cons.mp hr with hr | hr
  · exact hbig r hr
  intro hw hh
  have hcols : 0 < max 1 (ceilSqrt (n - 1)) := lt_of_lt_of_le one_pos (le_max_left _ _)
  set m := n - 1 with hm
  set cols := max 1 (ceilSqrt m) with hcolsdef
  set rows := max 1 (ceilDiv m cols) with hrowsdef
  have hrows : 0 < rows := lt_of_lt_of_le one_pos (le_max_left _ _)
  set gridH := max 0 (H / 2 - g * 1.5) with hgridHdef
  set cw := max 0 ((W - ((cols : ℚ) + 1) * g) / (cols : ℚ)) with hcwdef
  set ch := max 0 ((gridH - ((rows : ℚ) - 1) * g) / (rows : ℚ)) with hchdef
  obtain ⟨hcw', hch', hx1, hy1, hx2, hy2⟩ :=
    cellsAt_mem_bounds m cols rows g _ cw ch g g hcols (n_le_cells m)
      (le_max_left _ _) (le_max_left _ _) hg hg r hr
  have hcolsQ : (0 : ℚ) < (cols : ℚ) := by exact_mod_cast hcols
  have hrowsQ : (0 : ℚ) < (rows : ℚ) := by exact_mod_cast hrows
  have hrows1 : (1 : ℚ) ≤ (rows : ℚ) := by exact_mod_cast hrows
  have hcwp : 0 < cw := hcw' ▸ hw
  have hchp : 0 < ch := hch' ▸ hh
  have hcw_eq : cw = (W - ((cols : ℚ) + 1) * g) / (cols : ℚ) := pos_of_max_pos _ hcwp
  have hch_eq : ch = (gridH - ((rows : ℚ) - 1) * g) / (rows : ℚ) := pos_of_max_pos _ hchp
  have hnum_pos : 0 < gridH - ((rows : ℚ) - 1) * g := by
    by_contra hc
    push_neg at hc
    have : (gridH - ((rows : ℚ) - 1) * g) / (rows : ℚ) ≤ 0 :=
      div_nonpos_iff.mpr (Or.inr ⟨hc, hrowsQ.le⟩)
    rw [← hch_eq] at this
    linarith
  have hgridH_pos : 0 < gridH := by nlinarith [mul_nonneg (sub_nonneg.mpr hrows1) hg]
  have hgridH_eq : gridH = H / 2 - g * 1.5 := pos_of_max_pos _ hgridH_pos
  have hmulW : (cols : ℚ) * cw = W - ((cols : ℚ) + 1) * g := by
    rw [hcw_eq]; field_simp
  have hmulH : (rows : ℚ) * ch = gridH - ((rows : ℚ) - 1) * g := by
    rw [hch_eq]; field_simp
  refine ⟨by linarith, ?_, ?_, ?_⟩
  · cases b
    · simp only [Bool.false_eq_true, if_false] at hy1
      linarith
    · simp only [if_true] at hy1
      linarith
  · rw [hcw']
    linarith [hx2, hmulW]
  · rw [hch']
    cases b
    · simp only [Bool.false_eq_true, if_false] at hy2
      linarith [hy2, hmulH, hgridH_eq]
    · simp only [if_true] at hy2
      linarith [hy2, hmulH, hgridH_eq]

theorem singleBlur_inside (n : ℕ) (W H : ℚ) (hW : 0 ≤ W) (hH : 0 ≤ H) :
    ∀ r ∈ singleBlurCase n W H, 0 < r.w → 0 < r.h → insideCanvas W H r := by
  unfold singleBlurCase
  by_cases h0 : n = 0
  · rw [if_pos h0]
    intro r hr
    simp at hr
  rw [if_neg h0]
  intro r hr hw hh
  rcases List.mem_append.mp hr with hr | hr
  · -- a background tile
    by_cases hm : 0 < n - 1
    · rw [if_pos hm] at hr
      have hcols : 0 < max 1 (ceilSqrt (n - 1)) := lt_of_lt_of_le one_pos (le_max_left _ _)
      have hrows : 0 < max 1 (ceilDiv (n - 1) (max 1 (ceilSqrt (n - 1)))) :=
        lt_of_lt_of_le one_pos (le_max_left _ _)
      have hcolsQ : (0 : ℚ) < ((max 1 (ceilSqrt (n - 1)) : ℕ) : ℚ) := by exact_mod_cast hcols
      have hrowsQ : (0 : ℚ) <
          ((max 1 (ceilDiv (n - 1) (max 1 (ceilSqrt (n - 1)))) : ℕ) : ℚ) := by
        exact_mod_cast hrows
      obtain ⟨hcw', hch', hx1, hy1, hx2, hy2⟩ :=
        cellsAt_mem_bounds (n - 1) _ _ 0 0 _ _ 0 0 hcols (n_le_cells (n - 1))
          (div_nonneg hW hcolsQ.le) (div_nonneg hH hrowsQ.le) le_rfl le_rfl r hr
      have hmulW : ((max 1 (ceilSqrt (n - 1)) : ℕ) : ℚ) *
          (W / ((max 1 (ceilSqrt (n - 1)) : ℕ) : ℚ)) = W := by field_simp
      have hmulH : ((max 1 (ceilDiv (n - 1) (max 1 (ceilSqrt (n - 1)))) : ℕ) : ℚ) *
          (H / ((max 1 (ceilDiv (n - 1) (max 1 (ceilSqrt (n - 1)))) : ℕ) : ℚ)) = H := by
        field_simp
      refine ⟨by linarith, by linarith, ?_, ?_⟩
      · rw [hcw']
        linarith [hx2, hmulW]
      · rw [hch']
        linarith [hy2, hmulH]
    · rw [if_neg hm] at hr
      simp at hr
  · -- the centered main placement
    rw [List.mem_singleton] at hr
    subst hr
    simp only at hw hh ⊢
    exact ⟨by linarith, by linarith, by linarith, by linarith⟩

/-- C4 counterexample: in `single-blur` mode with 2 images on a 100×100
canvas, the background tile (image 1 stretched over the whole canvas) and the
centered main placement (80% × 90% of the canvas) overlap. -/
theorem placements_overlap_cex :
    layoutPlacements "single-blur" 2 100 100 0 = [⟨0, 0, 100, 100⟩, ⟨10, 5, 80, 90⟩] ∧
    overlaps ⟨0, 0, 100, 100⟩ ⟨10, 5, 80, 90⟩ := by
  constructor
  · rw [layoutPlacements_singleBlur]
    simp only [singleBlurCase, cellsAt, ceilSqrt_one]
    norm_num [ceilDiv, ceilSqrt_one, List.range_succ, Rect.mk.injEq]
  · unfold overlaps
    norm_num

/-- C4 (amended): for every layout mode except `single-blur` the placement
rectangles of a single layout resolution are pairwise non-overlapping
(interiors disjoint), and in every mode each placement of positive width and
height lies inside the canvas `[0, W] × [0, H]`; in `single-blur` mode the
background tiles intentionally lie behind (and overlap) the main
placement. -/
theorem placements_disjoint_inside (mode : String) (n : ℕ) (W H g : ℚ)
    (hW : 0 ≤ W) (hH : 0 ≤ H) (hg : 0 ≤ g) :
    (mode ≠ "single-blur" →
      (layoutPlacements mode n W H g).Pairwise (fun a b => ¬ overlaps a b)) ∧
    (∀ r ∈ layoutPlacements mode n W H g, 0 < r.w → 0 < r.h → insideCanvas W H r) := by
  by_cases h1 : mode = "freeform"
  · subst h1
    exact ⟨fun _ => by rw [layoutPlacements_freeform]; exact List.Pairwise.nil,
      by rw [layoutPlacements_freeform]; intro r hr; simp at hr⟩
  by_cases h2 : mode = "grid"
  · subst h2
    exact ⟨fun _ => by rw [layoutPlacements_grid]; exact gridCase_pairwise n W H g hg,
      by rw [layoutPlacements_grid]; exact gridCase_inside n W H g hW hH hg⟩
  by_cases h3 : mode = "left-big"
  · subst h3
    exact ⟨fun _ => by
        rw [layoutPlacements_leftBig]; exact leftRightBig_pairwise true n W H g hg,
      by rw [layoutPlacements_leftBig]; exact leftRightBig_inside true n W H g hW hH hg⟩
  by_cases h4 : mode = "right-big"
  · subst h4
    exact ⟨fun _ => by
        rw [layoutPlacements_rightBig]; exact leftRightBig_pairwise false n W H g hg,
      by rw [layoutPlacements_rightBig]; exact leftRightBig_inside false n W H g hW hH hg⟩
  by_cases h5 : mode = "top-big"
  · subst h5
    exact ⟨fun _ => by
        rw [layoutPlacements_topBig]; exact topBottomBig_pairwise true n W H g hg,
      by rw [layoutPlacements_topBig]; exact topBottomBig_inside true n W H g hW hH hg⟩
  by_cases h6 : mode = "bottom-big"
  · subst h6
    exact ⟨fun _ => by
        rw [layoutPlacements_bottomBig]; exact topBottomBig_pairwise false n W H g hg,
      by rw [layoutPlacements_bottomBig]; exact topBottomBig_inside false n W H g hW hH hg⟩
  by_cases h7 : mode = "single-blur"
  · subst h7
    exact ⟨fun hmode => absurd rfl hmode,
      by rw [layoutPlacements_singleBlur]; exact singleBlur_inside n W H hW hH⟩
  have hdef : layoutPlacements mode n W H g = [] := by
    unfold layoutPlacements
    rw [if_neg h1, if_neg h2, if_neg h3, if_neg h4, if_neg h5, if_neg h6, if_neg h7]
  exact ⟨fun _ => by rw [hdef]; exact List.Pairwise.nil,
    by rw [hdef]; intro r hr; simp at hr⟩

/-- C4 witness: the amended statement at `grid`, 4 images, 800×600, gap 16. -/
theorem placements_disjoint_inside_witness :
    (("grid" : String) ≠ "single-blur" →
      (layoutPlacements "grid" 4 800 600 16).Pairwise (fun a b => ¬ overlaps a b)) ∧
    (∀ r ∈ layoutPlacements "grid" 4 800 600 16,
      0 < r.w → 0 < r.h → insideCanvas 800 600 r) :=
  placements_disjoint_inside "grid" 4 800 600 16 (by norm_num) (by norm_num) (by norm_num)

/-! ## Freeform snapping (`getSnapped` in `FreeformCanvas.tsx`)

The candidate sets and the nearest-within-threshold scan are transcribed
directly: candidates for the X axis are canvas edges/center, the pixel-grid
line nearest the raw position (when grid snapping is on), the cell-grid
edges/centers (when the cell overlay is shown with positive rows/cols), and
the centers of all other items (when smart alignment is on and more than one
item exists); symmetrically for Y.  The scan keeps the first strictly closer
candidate within the fixed 8-pixel threshold. -/

structure SnapItem where
  id : String
  x : ℚ
  y : ℚ
deriving DecidableEq, Repr

structure SnapConfig where
  w : ℚ
  h : ℚ
  snapGrid : Bool
  gridSize : ℚ
  showCells : Bool
  rows : ℕ
  cols : ℕ
  cellGapX : ℚ
  cellGapY : ℚ
  snapSmart : Bool
  items : List SnapItem
  activeId : Option String

/-- `Math.round` (half away from zero rounds up in JS: `round(x) = ⌊x + 0.5⌋`). -/
def jsRound (q : ℚ) : ℤ := ⌊q + 1 / 2⌋

/-- X candidates contributed by the cell grid loop (`x`, `cx`, `x + cellW`
for every cell). -/
def cellCandsX (cfg : SnapConfig) : List ℚ :=
  let cellW := (cfg.w - ((cfg.cols : ℚ) + 1) * cfg.cellGapX) / (cfg.cols : ℚ)
  (List.range cfg.rows).flatMap fun _ =>
    (List.range cfg.cols).flatMap fun c =>
      let x := cfg.cellGapX + (c : ℚ) * (cellW + cfg.cellGapX)
      [x, x + cellW / 2, x + cellW]

/-- Y candidates contributed by the cell grid loop (`y`, `cy`, `y + cellH`). -/
def cellCandsY (cfg : SnapConfig) : List ℚ :=
  let cellH := (cfg.h - ((cfg.rows : ℚ) + 1) * cfg.cellGapY) / (cfg.rows : ℚ)
  (List.range cfg.rows).flatMap fun r =>
    (List.range cfg.cols).flatMap fun _ =>
      let y := cfg.cellGapY + (r : ℚ) * (cellH + cfg.cellGapY)
      [y, y + cellH / 2, y + cellH]

/-- Centers of all items other than the active one. -/
def otherItemCandsX (cfg : SnapConfig) : List ℚ :=
  (cfg.items.filter fun it => !(cfg.activeId == some it.id)).map (·.x)

def otherItemCandsY (cfg : SnapConfig) : List ℚ :=
  (cfg.items.filter fun it => !(cfg.activeId == some it.id)).map (·.y)

/-- The X-axis candidate list built per drag frame. -/
def candX (cfg : SnapConfig) (nx : ℚ) : List ℚ :=
  [0, cfg.w / 2, cfg.w]
  ++ (if cfg.snapGrid then [((jsRound (nx / cfg.gridSize) : ℤ) : ℚ) * cfg.gridSize] else [])
  ++ (if cfg.showCells ∧ 0 < cfg.rows ∧ 0 < cfg.cols then cellCandsX cfg else [])
  ++ (if cfg.snapSmart ∧ 1 < cfg.items.length then otherItemCandsX cfg else [])

/-- The Y-axis candidate list built per drag frame. -/
def candY (cfg : SnapConfig) (ny : ℚ) : List ℚ :=
  [0, cfg.h / 2, cfg.h]
  ++ (if cfg.snapGrid then [((jsRound (ny / cfg.gridSize) : ℤ) : ℚ) * cfg.gridSize] else [])
  ++ (if cfg.showCells ∧ 0 < cfg.rows ∧ 0 < cfg.cols then cellCandsY cfg else [])
  ++ (if cfg.snapSmart ∧ 1 < cfg.items.length then otherItemCandsY cfg else [])

/-- One step of the nearest-candidate scan: `if (d < best && d <= thresh)`
with `thresh = 8`, carried state `(snapped, best, guide)`. -/
def snapStep (v : ℚ) (acc : ℚ × ℚ × Option ℚ) (t : ℚ) : ℚ × ℚ × Option ℚ :=
  if |t - v| < acc.2.1 ∧ |t - v| ≤ 8 then (t, |t - v|, some t) else acc

/-- The scan over a candidate list, starting from the raw position with
`best = thresh + 1` and no guide. -/
def snapFold (v : ℚ) (cands : List ℚ) : ℚ × ℚ × Option ℚ :=
  cands.foldl (snapStep v) (v, 8 + 1, none)

def guideList : Option ℚ → List ℚ
  | some gx => [gx]
  | none => []

structure SnapResult where
  x : ℚ
  y : ℚ
  guidesX : List ℚ
  guidesY : List ℚ
deriving DecidableEq, Repr

/-- `getSnapped`: early return of the raw position when the momentary
modifier (Alt) is held, otherwise the independent per-axis scans, surfacing
hit candidates as guide lines. -/
def getSnapped (cfg : SnapConfig) (nx ny : ℚ) (ignoreSnap : Bool) : SnapResult :=
  if ignoreSnap then ⟨nx, ny, [], []⟩
  else
    ⟨(snapFold nx (candX cfg nx)).1, (snapFold ny (candY cfg ny)).1,
      guideList (snapFold nx (candX cfg nx)).2.2,
      guideList (snapFold ny (candY cfg ny)).2.2⟩

theorem snapFoldl_no_cand (v : ℚ) (l : List ℚ) (acc : ℚ × ℚ × Option ℚ)
    (h : ∀ c ∈ l, ¬ |c - v| ≤ 8) : l.foldl (snapStep v) acc = acc := by
  induction l generalizing acc with
  | nil => rfl
  | cons t ts ih =>
    rw [List.foldl_cons]
    have hstep : snapStep v acc t = acc := by
      unfold snapStep
      rw [if_neg]
      rintro ⟨-, h2⟩
      exact h t (List.mem_cons_self t ts) h2
    rw [hstep]
    exact ih _ (fun c hc => h c (List.mem_cons_of_mem _ hc))

theorem snapFoldl_best_mono (v : ℚ) (l : List ℚ) (acc : ℚ × ℚ × Option ℚ) :
    (l.foldl (snapStep v) acc).2.1 ≤ acc.2.1 := by
  induction l generalizing acc with
  | nil => exact le_refl _
  | cons t ts ih =>
    rw [List.foldl_cons]
    refine le_trans (ih _) ?_
    unfold snapStep
    split_ifs with hf
    · exact hf.1.le
    · exact le_refl _

theorem snapFoldl_min (v : ℚ) (l : List ℚ) (acc : ℚ × ℚ × Option ℚ) :
    ∀ c ∈ l, |c - v| ≤ 8 → (l.foldl (snapStep v) acc).2.1 ≤ |c - v| := by
  induction l generalizing acc with
  | nil =>
    intro c hc
    simp at hc
  | cons t ts ih =>
    intro c hc h8
    rw [List.foldl_cons]
    rcases List.mem_cons.mp hc with rfl | hc
    · by_cases hf : |c - v| < acc.2.1 ∧ |c - v| ≤ 8
      · have hs : (snapStep v acc c).2.1 = |c - v| := by
          unfold snapStep
          rw [if_pos hf]
        exact le_trans (snapFoldl_best_mono v ts _) (le_of_eq hs)
      · have hstep : snapStep v acc c = acc := by
          unfold snapStep
          rw [if_neg hf]
        have hb : acc.2.1 ≤ |c - v| := by
          by_contra hlt
          push_neg at hlt
          exact hf ⟨hlt, h8⟩
        rw [hstep]
        exact le_trans (snapFoldl_best_mono v ts acc) hb
    · exact ih _ c hc h8

/-- Invariant of the scan state: either untouched (raw position, best `9`,
no guide) or holding a candidate within threshold with its exact distance
and guide. -/
def GoodAcc (v : ℚ) (acc : ℚ × ℚ × Option ℚ) : Prop :=
  (acc.1 = v ∧ acc.2.1 = 8 + 1 ∧ acc.2.2 = none) ∨
  (|acc.1 - v| = acc.2.1 ∧ acc.2.1 ≤ 8 ∧ acc.2.2 = some acc.1)

theorem snapFoldl_good (v : ℚ) (l : List ℚ) (acc : ℚ × ℚ × Option ℚ)
    (h : GoodAcc v acc) : GoodAcc v (l.foldl (snapStep v) acc) := by
  induction l generalizing acc with
  | nil => exact h
  | cons t ts ih =>
    rw [List.foldl_cons]
    apply ih
    unfold snapStep
    split_ifs with hf
    · exact Or.inr ⟨rfl, hf.2, rfl⟩
    · exact h

theorem snapFoldl_mem (v : ℚ) (l : List ℚ) (acc : ℚ × ℚ × Option ℚ) :
    l.foldl (snapStep v) acc = acc ∨ (l.foldl (snapStep v) acc).1 ∈ l := by
  induction l generalizing acc with
  | nil => exact Or.inl rfl
  | cons t ts ih =>
    rw [List.foldl_cons]
    by_cases hf : |t - v| < acc.2.1 ∧ |t - v| ≤ 8
    · have hstep : snapStep v acc t = (t, |t - v|, some t) := by
        unfold snapStep
        rw [if_pos hf]
      rcases ih (snapStep v acc t) with he | hm
      · right
        rw [he, hstep]
        exact List.mem_cons_self _ _
      · exact Or.inr (List.mem_cons_of_mem _ hm)
    · have hstep : snapStep v acc t = acc := by
        unfold snapStep
        rw [if_neg hf]
      rw [hstep]
      rcases ih acc with he | hm
      · exact Or.inl he
      · exact Or.inr (List.mem_cons_of_mem _ hm)

/-- Complete case analysis of one axis scan: either no candidate lies within
the 8-pixel threshold and the state is untouched, or the result is a
candidate within threshold at minimal distance, surfaced as the guide. -/
theorem snapFold_cases (v : ℚ) (l : List ℚ) :
    (snapFold v l = (v, 8 + 1, none) ∧ ∀ c ∈ l, ¬ |c - v| ≤ 8) ∨
    ((snapFold v l).1 ∈ l ∧ |(snapFold v l).1 - v| ≤ 8 ∧
      (snapFold v l).2.2 = some (snapFold v l).1 ∧
      ∀ c ∈ l, |(snapFold v l).1 - v| ≤ |c - v|) := by
  have hgood : GoodAcc v (snapFold v l) :=
    snapFoldl_good v l (v, 8 + 1, none) (Or.inl ⟨rfl, rfl, rfl⟩)
  rcases hgood with ⟨h1, h2, h3⟩ | ⟨h1, h2, h3⟩
  · left
    constructor
    · have he : snapFold v l =
          ((snapFold v l).1, (snapFold v l).2.1, (snapFold v l).2.2) := rfl
      rw [he, h1, h2, h3]
    · intro c hc h8
      have hb : (snapFold v l).2.1 ≤ |c - v| := snapFoldl_min v l (v, 8 + 1, none) c hc h8
      rw [h2] at hb
      linarith
  · right
    have hmem : (snapFold v l).1 ∈ l := by
      rcases snapFoldl_mem v l (v, 8 + 1, none) with he | hm
      · rw [show l.foldl (snapStep v) (v, 8 + 1, none) = snapFold v l from rfl] at he
        rw [he] at h3
        simp at h3
      · exact hm
    refine ⟨hmem, by rw [h1]; exact h2, h3, fun c hc => ?_⟩
    rcases le_or_lt |c - v| 8 with h8 | h8
    · have hb : (snapFold v l).2.1 ≤ |c - v| := snapFoldl_min v l (v, 8 + 1, none) c hc h8
      rw [← h1] at hb
      exact hb
    · rw [h1]
      linarith

/-- A value already on a pixel-grid line rounds to itself. -/
theorem jsRound_mult (k : ℤ) (gs : ℚ) :
    ((jsRound (((k : ℚ) * gs) / gs) : ℤ) : ℚ) * gs = (k : ℚ) * gs := by
  by_cases hgs : gs = 0
  · simp [hgs]
  · have h1 : ((k : ℚ) * gs) / gs = (k : ℚ) := by field_simp
    rw [h1]
    have h2 : jsRound (k : ℚ) = k := by
      unfold jsRound
      rw [show ((k : ℚ) + 1 / 2) = (1 / 2 : ℚ) + (k : ℤ) by push_cast; ring]
      rw [Int.floor_add_int]
      norm_num
    rw [h2]

/-- The candidate list is stable at a snapped value: a candidate for the raw
position `v` is again a candidate when the scan is re-run at itself (only the
pixel-grid candidate depends on the input, and grid multiples round to
themselves). -/
theorem mem_candX_self (cfg : SnapConfig) (v s : ℚ) (h : s ∈ candX cfg v) :
    s ∈ candX cfg s := by
  simp only [candX, List.mem_append] at h ⊢
  rcases h with ((hA | hG) | hC) | hI
  · exact Or.inl (Or.inl (Or.inl hA))
  · left; left; right
    by_cases hb : cfg.snapGrid
    · rw [if_pos hb] at hG ⊢
      rw [List.mem_singleton] at hG ⊢
      rw [hG]
      exact (jsRound_mult (jsRound (v / cfg.gridSize)) cfg.gridSize).symm
    · rw [if_neg hb] at hG
      simp at hG
  · exact Or.inl (Or.inr hC)
  · exact Or.inr hI

theorem mem_candY_self (cfg : SnapConfig) (v s : ℚ) (h : s ∈ candY cfg v) :
    s ∈ candY cfg s := by
  simp only [candY, List.mem_append] at h ⊢
  rcases h with ((hA | hG) | hC) | hI
  · exact Or.inl (Or.inl (Or.inl hA))
  · left; left; right
    by_cases hb : cfg.snapGrid
    · rw [if_pos hb] at hG ⊢
      rw [List.mem_singleton] at hG ⊢
      rw [hG]
      exact (jsRound_mult (jsRound (v / cfg.gridSize)) cfg.gridSize).symm
    · rw [if_neg hb] at hG
      simp at hG
  · exact Or.inl (Or.inr hC)
  · exact Or.inr hI

theorem getSnapped_x (cfg : SnapConfig) (nx ny : ℚ) :
    (getSnapped cfg nx ny false).x = (snapFold nx (candX cfg nx)).1 := rfl

theorem getSnapped_y (cfg : SnapConfig) (nx ny : ℚ) :
    (getSnapped cfg nx ny false).y = (snapFold ny (candY cfg ny)).1 := rfl

theorem getSnapped_gx (cfg : SnapConfig) (nx ny : ℚ) :
    (getSnapped cfg nx ny false).guidesX = guideList (snapFold nx (candX cfg nx)).2.2 := rfl

theorem getSnapped_gy (cfg : SnapConfig) (nx ny : ℚ) :
    (getSnapped cfg nx ny false).guidesY = guideList (snapFold ny (candY cfg ny)).2.2 := rfl

/-- C2: the snap search treats the axes independently; on each axis it
returns a nearest candidate within the fixed 8-pixel threshold when one
exists, leaves the axis at the raw pointer-derived position when none does,
and the momentary modifier (Alt) returns the raw position unchanged with no
guides. -/
theorem snap_independent_axes (cfg : SnapConfig) (nx ny : ℚ) :
    getSnapped cfg nx ny true = ⟨nx, ny, [], []⟩ ∧
    ((∃ c ∈ candX cfg nx, |c - nx| ≤ 8) →
      (getSnapped cfg nx ny false).x ∈ candX cfg nx ∧
      |(getSnapped cfg nx ny false).x - nx| ≤ 8 ∧
      ∀ c ∈ candX cfg nx, |(getSnapped cfg nx ny false).x - nx| ≤ |c - nx|) ∧
    ((∀ c ∈ candX cfg nx, ¬ |c - nx| ≤ 8) → (getSnapped cfg nx ny false).x = nx) ∧
    ((∃ c ∈ candY cfg ny, |c - ny| ≤ 8) →
      (getSnapped cfg nx ny false).y ∈ candY cfg ny ∧
      |(getSnapped cfg nx ny false).y - ny| ≤ 8 ∧
      ∀ c ∈ candY cfg ny, |(getSnapped cfg nx ny false).y - ny| ≤ |c - ny|) ∧
    ((∀ c ∈ candY cfg ny, ¬ |c - ny| ≤ 8) → (getSnapped cfg nx ny false).y = ny) := by
  refine ⟨rfl, ?_, ?_, ?_, ?_⟩
  · rintro ⟨c, hc, h8⟩
    rw [getSnapped_x]
    rcases snapFold_cases nx (candX cfg nx) with ⟨-, hno⟩ | ⟨hmem, hle, -, hmin⟩
    · exact absurd h8 (hno c hc)
    · exact ⟨hmem, hle, hmin⟩
  · intro hno
    rw [getSnapped_x]
    rcases snapFold_cases nx (candX cfg nx) with ⟨heq, -⟩ | ⟨hmem, hle, -, -⟩
    · rw [heq]
    · exact absurd hle (hno _ hmem)
  · rintro ⟨c, hc, h8⟩
    rw [getSnapped_y]
    rcases snapFold_cases ny (candY cfg ny) with ⟨-, hno⟩ | ⟨hmem, hle, -, hmin⟩
    · exact absurd h8 (hno c hc)
    · exact ⟨hmem, hle, hmin⟩
  · intro hno
    rw [getSnapped_y]
    rcases snapFold_cases ny (candY cfg ny) with ⟨heq, -⟩ | ⟨hmem, hle, -, -⟩
    · rw [heq]
    · exact absurd hle (hno _ hmem)

/-- C10: the snapped position never moves either coordinate by more than the
8-pixel threshold, and at most one vertical and one horizontal guide line are
reported. -/
theorem snap_threshold_and_guides (cfg : SnapConfig) (nx ny : ℚ) (b : Bool) :
    |(getSnapped cfg nx ny b).x - nx| ≤ 8 ∧ |(getSnapped cfg nx ny b).y - ny| ≤ 8 ∧
    (getSnapped cfg nx ny b).guidesX.length ≤ 1 ∧
    (getSnapped cfg nx ny b).guidesY.length ≤ 1 := by
  cases b
  · refine ⟨?_, ?_, ?_, ?_⟩
    · rw [getSnapped_x]
      rcases snapFold_cases nx (candX cfg nx) with ⟨heq, -⟩ | ⟨-, hle, -, -⟩
      · rw [heq]; simp
      · exact hle
    · rw [getSnapped_y]
      rcases snapFold_cases ny (candY cfg ny) with ⟨heq, -⟩ | ⟨-, hle, -, -⟩
      · rw [heq]; simp
      · exact hle
    · rw [getSnapped_gx]
      cases (snapFold nx (candX cfg nx)).2.2 <;> simp [guideList]
    · rw [getSnapped_gy]
      cases (snapFold ny (candY cfg ny)).2.2 <;> simp [guideList]
  · exact ⟨by simp [getSnapped], by simp [getSnapped], by simp [getSnapped],
      by simp [getSnapped]⟩

theorem snapFold_idem_axis (v : ℚ) (candsOf : ℚ → List ℚ)
    (hstable : ∀ s ∈ candsOf v, s ∈ candsOf s) :
    (snapFold (snapFold v (candsOf v)).1 (candsOf (snapFold v (candsOf v)).1)).1 =
      (snapFold v (candsOf v)).1 ∧
    (snapFold (snapFold v (candsOf v)).1 (candsOf (snapFold v (candsOf v)).1)).2.2 =
      (snapFold v (candsOf v)).2.2 := by
  rcases snapFold_cases v (candsOf v) with ⟨heq, -⟩ | ⟨hmem, -, hg, -⟩
  · have hx : (snapFold v (candsOf v)).1 = v := by rw [heq]
    rw [hx]
    exact ⟨hx, rfl⟩
  · have hmem' : (snapFold v (candsOf v)).1 ∈ candsOf (snapFold v (candsOf v)).1 :=
      hstable _ hmem
    rcases snapFold_cases (snapFold v (candsOf v)).1
        (candsOf (snapFold v (candsOf v)).1) with ⟨-, hno'⟩ | ⟨-, -, hg', hmin'⟩
    · exact absurd (by norm_num :
        |(snapFold v (candsOf v)).1 - (snapFold v (candsOf v)).1| ≤ 8) (hno' _ hmem')
    · have h0 := hmin' _ hmem'
      have h00 : |(snapFold (snapFold v (candsOf v)).1
          (candsOf (snapFold v (candsOf v)).1)).1 - (snapFold v (candsOf v)).1| = 0 := by
        have hnn := abs_nonneg ((snapFold (snapFold v (candsOf v)).1
          (candsOf (snapFold v (candsOf v)).1)).1 - (snapFold v (candsOf v)).1)
        simp only [sub_self, abs_zero] at h0
        linarith
      rw [abs_eq_zero, sub_eq_zero] at h00
      refine ⟨h00, ?_⟩
      rw [hg', h00, hg]

/-- C5: the snap search is idempotent — re-running `getSnapped` on its own
output (same candidate configuration, same modifier state) returns the same
position and guides. -/
theorem snap_idempotent (cfg : SnapConfig) (nx ny : ℚ) (b : Bool) :
    getSnapped cfg (getSnapped cfg nx ny b).x (getSnapped cfg nx ny b).y b =
      getSnapped cfg nx ny b := by
  cases b
  · obtain ⟨hx1, hx2⟩ := snapFold_idem_axis nx (candX cfg) (mem_candX_self cfg nx)
    obtain ⟨hy1, hy2⟩ := snapFold_idem_axis ny (candY cfg) (mem_candY_self cfg ny)
    show (⟨(snapFold (snapFold nx (candX cfg nx)).1
            (candX cfg (snapFold nx (candX cfg nx)).1)).1,
          (snapFold (snapFold ny (candY cfg ny)).1
            (candY cfg (snapFold ny (candY cfg ny)).1)).1,
          guideList (snapFold (snapFold nx (candX cfg nx)).1
            (candX cfg (snapFold nx (candX cfg nx)).1)).2.2,
          guideList (snapFold (snapFold ny (candY cfg ny)).1
            (candY cfg (snapFold ny (candY cfg ny)).1)).2.2⟩ : SnapResult) =
        ⟨(snapFold nx (candX cfg nx)).1, (snapFold ny (candY cfg ny)).1,
          guideList (snapFold nx (candX cfg nx)).2.2,
          guideList (snapFold ny (candY cfg ny)).2.2⟩
    rw [hx1, hy1, hx2, hy2]
  · rfl

/-- A concrete snapping configuration for the C2 witness: 800×600 canvas,
grid snapping at 40 px, no cell overlay, no smart alignment. -/
def snapCfg0 : SnapConfig :=
  { w := 800, h := 600, snapGrid := true, gridSize := 40, showCells := false,
    rows := 2, cols := 3, cellGapX := 16, cellGapY := 16, snapSmart := false,
    items := [], activeId := none }

theorem snapCfg0_candX : candX snapCfg0 77 = [0, 400, 800, 80] := by
  have hj : jsRound (77 / 40 : ℚ) = 2 := by
    unfold jsRound
    norm_num
  simp [candX, snapCfg0, hj]
  norm_num

theorem snapCfg0_candY : candY snapCfg0 100 = [0, 300, 600, 120] := by
  have hj : jsRound (100 / 40 : ℚ) = 3 := by
    unfold jsRound
    norm_num
  simp [candY, snapCfg0, hj]
  norm_num

/-- C2 witness: at raw position (77, 100) the X axis snaps to the grid line
80 (within the 8 px threshold) while the Y axis, with no candidate within
threshold, stays at the raw position. -/
theorem snap_independent_axes_witness :
    (∃ c ∈ candX snapCfg0 77, |c - 77| ≤ 8) ∧
    (getSnapped snapCfg0 77 100 false).x ∈ candX snapCfg0 77 ∧
    (∀ c ∈ candY snapCfg0 100, ¬ |c - 100| ≤ 8) ∧
    (getSnapped snapCfg0 77 100 false).y = 100 := by
  have hex : ∃ c ∈ candX snapCfg0 77, |c - 77| ≤ 8 := by
    refine ⟨80, ?_, by norm_num⟩
    rw [snapCfg0_candX]
    simp
  have hnoy : ∀ c ∈ candY snapCfg0 100, ¬ |c - 100| ≤ 8 := by
    intro c hc
    rw [snapCfg0_candY] at hc
    simp only [List.mem_cons, List.mem_singleton, List.not_mem_nil, or_false] at hc
    rcases hc with rfl | rfl | rfl | rfl <;> norm_num
  exact ⟨hex, ((snap_independent_axes snapCfg0 77 100).2.1 hex).1, hnoy,
    (snap_independent_axes snapCfg0 77 100).2.2.2.2 hnoy⟩

/-! ## Layout-mode enumeration (`types.ts`) and the mode-switch handler -/

/-- The string-literal union `LayoutMode` exactly as declared in `types.ts`. -/
def layoutModeValues : List String :=
  ["grid", "left-big", "right-big", "top-big", "bottom-big", "single-blur",
   "grid-square", "justified"]

/-- The enumeration claimed by the spec (for comparison with
`layoutModeValues`). -/
def specLayoutModeValues : List String :=
  ["grid", "left-big", "right-big", "top-big", "bottom-big", "single-focus",
   "freeform"]

/-- C6 counterexample: the spec's member `single-focus` is not a value of the
declared `LayoutMode` type, while `grid-square` is a declared value the spec
omits. -/
theorem layoutMode_enum_cex :
    "single-focus" ∈ specLayoutModeValues ∧ "single-focus" ∉ layoutModeValues ∧
    "grid-square" ∈ layoutModeValues ∧ "grid-square" ∉ specLayoutModeValues := by
  refine ⟨?_, ?_, ?_, ?_⟩ <;> decide

/-- C6 (amended): the `LayoutMode` type is the closed enumeration of exactly
the eight values `grid`, `left-big`, `right-big`, `top-big`, `bottom-big`,
`single-blur`, `grid-square`, `justified` (no duplicates, nothing else);
in particular neither `single-focus` nor `freeform` is among them. -/
theorem layoutMode_enum :
    layoutModeValues.length = 8 ∧ layoutModeValues.Nodup ∧
    (∀ m, m ∈ layoutModeValues ↔
      m = "grid" ∨ m = "left-big" ∨ m = "right-big" ∨ m = "top-big" ∨
      m = "bottom-big" ∨ m = "single-blur" ∨ m = "grid-square" ∨ m = "justified") ∧
    "single-focus" ∉ layoutModeValues ∧ "freeform" ∉ layoutModeValues := by
  refine ⟨rfl, by decide, fun m => ?_, by decide, by decide⟩
  simp [layoutModeValues]

/-- The slice of App state touched by the layout-mode switch path: the image
working set, the active mode, and the freeform tidy counter. -/
structure AppState where
  images : List String
  layoutMode : String
  freeformTidyTick : ℕ
deriving DecidableEq, Repr

/-- The mode `<select>`'s `onChange` handler (`setLayoutMode`) combined with
the `useEffect` on `layoutMode`, which only bumps the freeform tidy counter
when the new mode is `freeform`. -/
def selectLayoutMode (s : AppState) (m : String) : AppState :=
  let s1 := { s with layoutMode := m }
  if m = "freeform" then { s1 with freeformTidyTick := s1.freeformTidyTick + 1 } else s1

/-- C9: switching the layout mode (to any mode) leaves the image working set
— the list and its ordering — unchanged, while the active mode becomes the
selected one. -/
theorem layout_switch_preserves_images (s : AppState) (m : String) :
    (selectLayoutMode s m).images = s.images ∧
    (selectLayoutMode s m).layoutMode = m := by
  unfold selectLayoutMode
  split_ifs <;> exact ⟨rfl, rfl⟩

/-! ## Compositor draw structure (placeholder and no-op behaviour) -/

inductive DrawOp where
  | background
  | placeholderText
  | image (r : Rect)
deriving DecidableEq, Repr

/-- The guard at the head of the shared `drawImage` helper
(`if (w <= 0 || h <= 0 || img.width <= 0 || img.height <= 0) return`):
a non-positive cell or bitmap dimension is a silent no-op. -/
def imageOp (r : Rect) (imgW imgH : ℚ) : List DrawOp :=
  if r.w ≤ 0 ∨ r.h ≤ 0 ∨ imgW ≤ 0 ∨ imgH ≤ 0 then [] else [DrawOp.image r]

/-- Image paint operations of the layout switch, with each image's bitmap
dimensions: placements are drawn through the guarded `drawImage` helper,
except the `single-blur` backdrop tiles, which the code hands to
`ctx.drawImage` directly without the guard. -/
def drawOpsForLayout (mode : String) (imgs : List (ℚ × ℚ)) (W H g : ℚ) : List DrawOp :=
  if mode = "single-blur" then
    (let m := imgs.length - 1
     let tiles :=
       if 0 < m then
         let cols := max 1 (ceilSqrt m)
         let rows := max 1 (ceilDiv m cols)
         cellsAt m cols 0 0 (W / cols) (H / rows) 0 0
       else []
     tiles.map DrawOp.image)
    ++ (match imgs.head? with
        | some d => imageOp ⟨(W - W * 0.8) / 2, (H - H * 0.9) / 2, W * 0.8, H * 0.9⟩ d.1 d.2
        | none => [])
  else
    ((layoutPlacements mode imgs.length W H g).zip imgs).flatMap fun p =>
      imageOp p.1 p.2.1 p.2.2

/-- Operations of the App's `drawCanvas`: after the background, the
"Upload images to begin" placeholder is painted (and drawing stops) only when
the working set is empty *and* this is not an export pass. -/
def appDrawOps (forExport : Bool) (mode : String) (imgs : List (ℚ × ℚ))
    (W H g : ℚ) : List DrawOp :=
  DrawOp.background ::
    (if imgs.length = 0 ∧ forExport = false then [DrawOp.placeholderText]
     else drawOpsForLayout mode imgs W H g)

/-- Operations of the UI preview worker's `drawCanvas`: an empty working set
always paints the placeholder and stops. -/
def uiWorkerDrawOps (mode : String) (imgs : List (ℚ × ℚ)) (W H g : ℚ) : List DrawOp :=
  DrawOp.background ::
    (if imgs.length = 0 then [DrawOp.placeholderText]
     else drawOpsForLayout mode imgs W H g)

/-- Operations of `drawExportCanvas` in the export worker: there is no
placeholder branch at all. -/
def exportDrawOps (mode : String) (imgs : List (ℚ × ℚ)) (W H g : ℚ) : List DrawOp :=
  DrawOp.background :: drawOpsForLayout mode imgs W H g

theorem drawOpsForLayout_nil (mode : String) (W H g : ℚ) :
    drawOpsForLayout mode [] W H g = [] := by
  unfold drawOpsForLayout
  split_ifs
  · rfl
  · simp

/-- C7 counterexample: the export compositor pass over an empty working set
paints only the background — no neutral placeholder. -/
theorem export_no_placeholder_cex :
    exportDrawOps "grid" [] 800 600 16 = [DrawOp.background] ∧
    DrawOp.placeholderText ∉ exportDrawOps "grid" [] 800 600 16 := by
  have h : exportDrawOps "grid" [] 800 600 16 = [DrawOp.background] := by
    unfold exportDrawOps
    rw [drawOpsForLayout_nil]
  refine ⟨h, ?_⟩
  rw [h]
  simp

/-- C7 (amended): an empty working set yields no placements; the interactive
draw and the preview-worker draw render the neutral placeholder, while the
export draw renders only the background — none of them fail; and the shared
`drawImage` helper turns any non-positive geometry into a no-op. -/
theorem empty_set_draw (mode : String) (W H g : ℚ) :
    layoutPlacements mode 0 W H g = [] ∧
    appDrawOps false mode [] W H g = [DrawOp.background, DrawOp.placeholderText] ∧
    uiWorkerDrawOps mode [] W H g = [DrawOp.background, DrawOp.placeholderText] ∧
    exportDrawOps mode [] W H g = [DrawOp.background] ∧
    (∀ r : Rect, ∀ iw ih : ℚ,
      (r.w ≤ 0 ∨ r.h ≤ 0 ∨ iw ≤ 0 ∨ ih ≤ 0) → imageOp r iw ih = []) := by
  refine ⟨?_, rfl, rfl, ?_, ?_⟩
  · unfold layoutPlacements
    split_ifs <;> rfl
  · unfold exportDrawOps
    rw [drawOpsForLayout_nil]
  · intro r iw ih h
    unfold imageOp
    rw [if_pos h]

/-- C7 witness: grid mode on an 800×600 canvas with gap 16, and a
zero-width placement fed to the draw helper. -/
theorem empty_set_draw_witness :
    exportDrawOps "grid" [] 800 600 16 = [DrawOp.background] ∧
    imageOp ⟨0, 0, 0, 10⟩ 1 1 = [] :=
  ⟨(empty_set_draw "grid" 800 600 16).2.2.2.1,
   (empty_set_draw "grid" 800 600 16).2.2.2.2 ⟨0, 0, 0, 10⟩ 1 1 (Or.inl (by norm_num))⟩

/-! ## Export worker message protocol (`export.worker.ts`) -/

inductive JVal where
  | s (v : String)
  | blob (id : ℕ)
deriving DecidableEq, Repr

/-- `self.onmessage` of the export worker, as the list of messages posted
back for one request: an early error if the `OffscreenCanvas` context could
not be obtained, otherwise a success message carrying the encoded blob, or
an error message carrying the caught exception's description. -/
def exportOnMessage (ctxOk : Bool) (drawResult : Except String ℕ) :
    List (List (String × JVal)) :=
  if ¬ ctxOk then
    [[("type", JVal.s "error"),
      ("error", JVal.s "Could not get OffscreenCanvas context")]]
  else
    match drawResult with
    | Except.ok b => [[("type", JVal.s "success"), ("blob", JVal.blob b)]]
    | Except.error msg => [[("type", JVal.s "error"), ("error", JVal.s msg)]]

/-- C8 counterexample: the success message posted by the worker is keyed
`type` (with the blob under `blob`) — it has no `status` field, so the
response shape is not `{status: success, blob}`. -/
theorem export_message_shape_cex :
    exportOnMessage true (Except.ok 0) =
      [[("type", JVal.s "success"), ("blob", JVal.blob 0)]] ∧
    ((exportOnMessage true (Except.ok 0)).headD []).lookup "status" = none ∧
    ((exportOnMessage true (Except.ok 0)).headD []).lookup "type" =
      some (JVal.s "success") := by
  refine ⟨rfl, rfl, rfl⟩

/-- C8 (amended): for every export request the worker posts back exactly one
message, and it is either `{type: 'success', blob}` or
`{type: 'error', error}`. -/
theorem export_message_protocol (ctxOk : Bool) (dr : Except String ℕ) :
    (exportOnMessage ctxOk dr).length = 1 ∧
    ((∃ b, exportOnMessage ctxOk dr =
        [[("type", JVal.s "success"), ("blob", JVal.blob b)]]) ∨
     (∃ msg, exportOnMessage ctxOk dr =
        [[("type", JVal.s "error"), ("error", JVal.s msg)]])) := by
  unfold exportOnMessage
  split_ifs with h
  · cases dr with
    | ok b => exact ⟨rfl, Or.inl ⟨b, rfl⟩⟩
    | error m => exact ⟨rfl, Or.inr ⟨m, rfl⟩⟩
  · exact ⟨rfl, Or.inr ⟨_, rfl⟩⟩
